import Mathlib

/-!
Verification of the WearNOW backend binary image metadata processor.

The definitions below are a shallow embedding of the byte-level
`ImageProcessor` in `amplify/functions/virtual-tryon/image-processor.ts`
and the helpers of `BedrockImageManipulation` in
`amplify/functions/virtual-tryon/bedrock-client.ts`.

A Node `Buffer` is modelled as `List Nat` (one `Nat` per byte).  JS
indexing `buffer[i]` out of range yields `undefined`, which compares
unequal to every byte constant used by the code (all nonzero), so it is
modelled by `List.getD buf i 0`.  `Buffer.readUInt16BE`/`readUInt32BE`
throw `ERR_OUT_OF_RANGE` when the read would cross the end of the
buffer; a throwing read is modelled as `none`, and the `try`/`catch`
blocks of the source become `Option` matches.  The `while` loops of the
source advance their cursor by at least two bytes per iteration, so they
are embedded as structural recursion on a fuel argument initialised with
the buffer length, which the fixpoint lemmas below show is never
exhausted on the paths the theorems talk about.
-/

namespace WearNow

/-- `buffer.readUInt16BE(i)`: big-endian 16-bit read, `none` models the
`ERR_OUT_OF_RANGE` exception. -/
def readUInt16BE (buf : List Nat) (i : Nat) : Option Nat :=
  if i + 2 ≤ buf.length then some (buf.getD i 0 * 256 + buf.getD (i+1) 0) else none

/-- `buffer.readUInt32BE(i)`: big-endian 32-bit read, `none` models the
`ERR_OUT_OF_RANGE` exception. -/
def readUInt32BE (buf : List Nat) (i : Nat) : Option Nat :=
  if i + 4 ≤ buf.length then
    some (buf.getD i 0 * 16777216 + buf.getD (i+1) 0 * 65536 +
          buf.getD (i+2) 0 * 256 + buf.getD (i+3) 0)
  else none

/-- A JPEG marker segment as seen by the marker walk: its marker byte,
the offset of its leading `0xFF`, and its total byte length
(2 for standalone markers, `2 + length field` otherwise). -/
structure MarkerSegment where
  marker : Nat
  startOffset : Nat
  totalLength : Nat
deriving Repr, DecidableEq

/-- Outcome of the EXIF stripper's marker walk: reached SOS (with the
segments seen before it and the SOS offset), ran off the end of the
buffer, or found a non-`0xFF` byte where a marker was expected. -/
inductive WalkOut where
  | sos (segs : List MarkerSegment) (sosOffset : Nat)
  | ended (segs : List MarkerSegment)
  | bad
deriving Repr, DecidableEq

/-- Prepend a segment to the segment list of a walk outcome. -/
def consOut (seg : MarkerSegment) : WalkOut → WalkOut
  | .sos segs s => .sos (seg :: segs) s
  | .ended segs => .ended (seg :: segs)
  | .bad => .bad

/-- The marker walk of `stripJPEGExif`, recorded abstractly: the same
loop structure and branch conditions as the source loop, but yielding
the segment list and termination cause instead of building the output
buffer.  `none` models a thrown `ERR_OUT_OF_RANGE`. -/
def walkSegsF : Nat → List Nat → Nat → Option WalkOut
  | 0, buf, i => if i < buf.length - 1 then none else some (.ended [])
  | f + 1, buf, i =>
    if i < buf.length - 1 then
      if buf.getD i 0 = 0xFF then
        if buf.getD (i+1) 0 = 0xE1 then
          match readUInt16BE buf (i+2) with
          | none => none
          | some len =>
            (walkSegsF f buf (i + 2 + len)).map (consOut ⟨0xE1, i, 2 + len⟩)
        else if buf.getD (i+1) 0 = 0xDA then
          some (.sos [] i)
        else if 0xD0 ≤ buf.getD (i+1) 0 ∧ buf.getD (i+1) 0 ≤ 0xD9 then
          (walkSegsF f buf (i + 2)).map (consOut ⟨buf.getD (i+1) 0, i, 2⟩)
        else
          match readUInt16BE buf (i+2) with
          | none => none
          | some len =>
            (walkSegsF f buf (i + 2 + len)).map
              (consOut ⟨buf.getD (i+1) 0, i, 2 + len⟩)
      else some .bad
    else some (.ended [])

/-- The loop of `stripJPEGExif` (image-processor.ts, lines 121-159),
translated byte for byte: `acc` is the concatenation of the `chunks`
array, `buffer.subarray(a, b)` is `(buf.drop a).take (b - a)`, and the
`return buffer` on a non-`0xFF` byte returns the whole original buffer.
`none` models a thrown `ERR_OUT_OF_RANGE`. -/
def stripLoopF : Nat → List Nat → Nat → List Nat → Option (List Nat)
  | 0, buf, i, acc => if i < buf.length - 1 then none else some acc
  | f + 1, buf, i, acc =>
    if i < buf.length - 1 then
      if buf.getD i 0 = 0xFF then
        if buf.getD (i+1) 0 = 0xE1 then
          match readUInt16BE buf (i+2) with
          | none => none
          | some len => stripLoopF f buf (i + 2 + len) acc
        else if buf.getD (i+1) 0 = 0xDA then
          some (acc ++ buf.drop i)
        else if 0xD0 ≤ buf.getD (i+1) 0 ∧ buf.getD (i+1) 0 ≤ 0xD9 then
          stripLoopF f buf (i + 2) (acc ++ (buf.drop i).take 2)
        else
          match readUInt16BE buf (i+2) with
          | none => none
          | some len => stripLoopF f buf (i + 2 + len) (acc ++ (buf.drop i).take (2 + len))
      else some buf
    else some acc

/-- `ImageProcessor.stripJPEGExif` (image-processor.ts, lines 114-162). -/
def stripJPEGExif (buf : List Nat) : Option (List Nat) :=
  stripLoopF buf.length buf 2 [0xFF, 0xD8]

/-- `ImageProcessor.processImageForBedrock` (image-processor.ts, lines
85-109) at the byte level: the spec's `stripExif`.  A non-JPEG input is
returned as-is; a thrown error is caught and the original input
returned. -/
def stripExif (buf : List Nat) : List Nat :=
  if buf.getD 0 0 = 0xFF ∧ buf.getD 1 0 = 0xD8 then
    match stripJPEGExif buf with
    | some out => out
    | none => buf
  else buf

/-- The bytes a segment contributes to the stripped output: nothing for
APP1 (`0xE1`), its verbatim byte range otherwise. -/
def renderSeg (buf : List Nat) (seg : MarkerSegment) : List Nat :=
  if seg.marker = 0xE1 then [] else (buf.drop seg.startOffset).take seg.totalLength

/-- Concatenated contributions of a segment list to the stripped output. -/
def renderSegs (buf : List Nat) (segs : List MarkerSegment) : List Nat :=
  (segs.map (renderSeg buf)).flatten

/-- The verbatim bytes of a segment, APP1 included. -/
def sliceSeg (buf : List Nat) (seg : MarkerSegment) : List Nat :=
  (buf.drop seg.startOffset).take seg.totalLength

/-- Concatenated verbatim bytes of a segment list, APP1 included. -/
def sliceSegs (buf : List Nat) (segs : List MarkerSegment) : List Nat :=
  (segs.map (sliceSeg buf)).flatten

/-- What `stripLoopF` returns for each walk outcome. -/
def stripOut (buf acc : List Nat) : WalkOut → List Nat
  | .sos segs s => acc ++ renderSegs buf segs ++ buf.drop s
  | .ended segs => acc ++ renderSegs buf segs
  | .bad => buf

/-- The bytes a completed walk contributes to the stripped output after
the SOI marker: the rendered segments, then (for a walk that reached
SOS) the verbatim tail from the SOS offset. -/
def walkBytes (x : List Nat) : WalkOut → List Nat
  | .sos segs s => renderSegs x segs ++ x.drop s
  | .ended segs => renderSegs x segs
  | .bad => []

/-- Result record of `getImageInfo`. -/
structure ImageMeta where
  format : String
  width : Nat
  height : Nat
  hasExif : Bool
deriving Repr, DecidableEq

/-- The JPEG scan loop of `getImageInfo` (image-processor.ts, lines
187-210): bounded by `min (length - 1) 1000`, accumulates the `hasExif`
flag, stops with dimensions at the first `0xC0` marker, breaks on a
non-`0xFF` byte.  Returns `(hasExif, width, height)`; `none` models a
thrown `ERR_OUT_OF_RANGE`. -/
def infoLoop : Nat → List Nat → Nat → Bool → Option (Bool × Nat × Nat)
  | 0, buf, i, e => if i < min (buf.length - 1) 1000 then none else some (e, 0, 0)
  | f + 1, buf, i, e =>
    if i < min (buf.length - 1) 1000 then
      if buf.getD i 0 = 0xFF then
        if buf.getD (i+1) 0 = 0xC0 then
          match readUInt16BE buf (i+5) with
          | none => none
          | some h =>
            match readUInt16BE buf (i+7) with
            | none => none
            | some w => some (e || decide (buf.getD (i+1) 0 = 0xE1), w, h)
        else if 0xD0 ≤ buf.getD (i+1) 0 ∧ buf.getD (i+1) 0 ≤ 0xD9 then
          infoLoop f buf (i + 2) (e || decide (buf.getD (i+1) 0 = 0xE1))
        else
          match readUInt16BE buf (i+2) with
          | none => none
          | some len => infoLoop f buf (i + 2 + len) (e || decide (buf.getD (i+1) 0 = 0xE1))
      else some (e, 0, 0)
    else some (e, 0, 0)

/-- The scan loop of `getImageInfo` abstracted to the offset of the
first `0xC0` marker it reaches: `some (some o)` when `0xC0` is found at
offset `o`, `some none` when the loop exits without one, `none` when a
length-field read throws. -/
def infoWalk : Nat → List Nat → Nat → Option (Option Nat)
  | 0, buf, i => if i < min (buf.length - 1) 1000 then none else some none
  | f + 1, buf, i =>
    if i < min (buf.length - 1) 1000 then
      if buf.getD i 0 = 0xFF then
        if buf.getD (i+1) 0 = 0xC0 then
          some (some i)
        else if 0xD0 ≤ buf.getD (i+1) 0 ∧ buf.getD (i+1) 0 ≤ 0xD9 then
          infoWalk f buf (i + 2)
        else
          match readUInt16BE buf (i+2) with
          | none => none
          | some len => infoWalk f buf (i + 2 + len)
      else some none
    else some none

/-- `ImageProcessor.getImageInfo` (image-processor.ts, lines 167-240).
The surrounding `try`/`catch` turns any thrown read into the
`{format: 'unknown', width: 0, height: 0, hasExif: false}` record. -/
def getImageInfo (buf : List Nat) : ImageMeta :=
  if buf.getD 0 0 = 0xFF ∧ buf.getD 1 0 = 0xD8 then
    match infoLoop buf.length buf 2 false with
    | some (e, w, h) => ⟨"jpeg", w, h, e⟩
    | none => ⟨"unknown", 0, 0, false⟩
  else if buf.getD 0 0 = 0x89 ∧ buf.getD 1 0 = 0x50 ∧
          buf.getD 2 0 = 0x4E ∧ buf.getD 3 0 = 0x47 then
    match readUInt32BE buf 16 with
    | none => ⟨"unknown", 0, 0, false⟩
    | some w =>
      match readUInt32BE buf 20 with
      | none => ⟨"unknown", 0, 0, false⟩
      | some h => ⟨"png", w, h, false⟩
  else ⟨"unknown", 0, 0, false⟩

/-- The spec's `ImageFormat` tag. -/
inductive ImageFormat where
  | jpeg
  | png
  | unknown
deriving Repr, DecidableEq

/-- The magic-byte format sniff shared by `getImageInfo` (lines 183,
213-218) and `validateImageFormat` (bedrock-client.ts, lines 156-162):
the spec's `detectFormat`. -/
def detectFormat (buf : List Nat) : ImageFormat :=
  if buf.getD 0 0 = 0xFF ∧ buf.getD 1 0 = 0xD8 then .jpeg
  else if buf.getD 0 0 = 0x89 ∧ buf.getD 1 0 = 0x50 ∧
          buf.getD 2 0 = 0x4E ∧ buf.getD 3 0 = 0x47 then .png
  else .unknown

/-- `BedrockImageManipulation.validateImageFormat` (bedrock-client.ts,
lines 151-177). -/
def validateImageFormat (buf : List Nat) : Bool :=
  (decide (buf.getD 0 0 = 0xFF) && decide (buf.getD 1 0 = 0xD8)) ||
  (decide (buf.getD 0 0 = 0x89) && decide (buf.getD 1 0 = 0x50) &&
   decide (buf.getD 2 0 = 0x4E) && decide (buf.getD 3 0 = 0x47))

/-- `BedrockImageManipulation.getImageSize` (bedrock-client.ts, lines
182-185): `base64.length * 0.75 - (count of '=')`, exact in IEEE
doubles for every realistic length, hence modelled as a rational. -/
def getImageSize (s : List Char) : ℚ :=
  (s.length * 3 : ℚ) / 4 - (s.count '=' : ℚ)

/-- Modelled from the claim's words, for comparison with the code: the
offset of the first SOFn segment (markers `0xC0`, `0xC1`, `0xC2`) in a
walk over the whole buffer that stops at SOS, end of buffer, or a
non-`0xFF` byte. -/
def specFirstSOFn : Nat → List Nat → Nat → Option Nat
  | 0, _, _ => none
  | f + 1, buf, i =>
    if i < buf.length - 1 then
      if buf.getD i 0 = 0xFF then
        if buf.getD (i+1) 0 = 0xC0 ∨ buf.getD (i+1) 0 = 0xC1 ∨
           buf.getD (i+1) 0 = 0xC2 then
          some i
        else if buf.getD (i+1) 0 = 0xDA then none
        else if 0xD0 ≤ buf.getD (i+1) 0 ∧ buf.getD (i+1) 0 ≤ 0xD9 then
          specFirstSOFn f buf (i + 2)
        else
          match readUInt16BE buf (i+2) with
          | none => none
          | some len => specFirstSOFn f buf (i + 2 + len)
      else none
    else none

lemma getD_drop (x : List Nat) (i k d : Nat) : (x.drop i).getD k d = x.getD (i + k) d := by
  simp [List.getD_eq_getElem?_getD, List.getElem?_drop]

lemma getD_append_right (a b : List Nat) (k d : Nat) :
    (a ++ b).getD (a.length + k) d = b.getD k d := by
  simp [List.getD_eq_getElem?_getD, List.getElem?_append_right (Nat.le_add_right a.length k)]

lemma getD_take (x : List Nat) (n k d : Nat) (h : k < n) :
    (x.take n).getD k d = x.getD k d := by
  simp [List.getD_eq_getElem?_getD, List.getElem?_take_of_lt h]

lemma renderSegs_nil (buf : List Nat) : renderSegs buf [] = [] := rfl

lemma renderSegs_cons (buf : List Nat) (seg : MarkerSegment) (segs : List MarkerSegment) :
    renderSegs buf (seg :: segs) = renderSeg buf seg ++ renderSegs buf segs := by
  simp [renderSegs]

lemma sliceSegs_nil (buf : List Nat) : sliceSegs buf [] = [] := rfl

lemma sliceSegs_cons (buf : List Nat) (seg : MarkerSegment) (segs : List MarkerSegment) :
    sliceSegs buf (seg :: segs) = sliceSeg buf seg ++ sliceSegs buf segs := by
  simp [sliceSegs]

lemma stripOut_consOut (buf acc : List Nat) (seg : MarkerSegment) (o : WalkOut) :
    stripOut buf acc (consOut seg o) = stripOut buf (acc ++ renderSeg buf seg) o := by
  cases o <;> simp [stripOut, consOut, renderSegs_cons, renderSegs]

/-- The stripper loop is the abstract marker walk followed by rendering:
on each outcome of `walkSegsF` the loop returns exactly `stripOut`. -/
lemma stripLoopF_eq_walk (f : Nat) : ∀ (buf : List Nat) (i : Nat) (acc : List Nat),
    stripLoopF f buf i acc = (walkSegsF f buf i).map (stripOut buf acc) := by
  induction f with
  | zero =>
    intro buf i acc
    rw [stripLoopF, walkSegsF]
    by_cases hc : i < buf.length - 1
    · rw [if_pos hc, if_pos hc]; rfl
    · rw [if_neg hc, if_neg hc]
      simp [stripOut, renderSegs]
  | succ f ih =>
    intro buf i acc
    rw [stripLoopF, walkSegsF]
    by_cases hc : i < buf.length - 1
    case neg =>
      rw [if_neg hc, if_neg hc]
      simp [stripOut, renderSegs]
    case pos =>
    rw [if_pos hc, if_pos hc]
    by_cases hff : buf.getD i 0 = 0xFF
    case neg =>
      rw [if_neg hff, if_neg hff]
      simp [stripOut]
    case pos =>
    rw [if_pos hff, if_pos hff]
    by_cases he1 : buf.getD (i+1) 0 = 0xE1
    · rw [if_pos he1, if_pos he1]
      cases hr : readUInt16BE buf (i+2) with
      | none => simp only [hr]; rfl
      | some len =>
        simp only [hr]
        rw [ih]
        cases hw : walkSegsF f buf (i + 2 + len) with
        | none => simp only [hw, Option.map_none']
        | some o =>
          simp only [hw, Option.map_some']
          rw [stripOut_consOut]
          simp [renderSeg]
    · rw [if_neg he1, if_neg he1]
      by_cases hda : buf.getD (i+1) 0 = 0xDA
      · rw [if_pos hda, if_pos hda]
        simp [stripOut, renderSegs]
      · rw [if_neg hda, if_neg hda]
        by_cases hst : 0xD0 ≤ buf.getD (i+1) 0 ∧ buf.getD (i+1) 0 ≤ 0xD9
        · rw [if_pos hst, if_pos hst, ih]
          cases hw : walkSegsF f buf (i + 2) with
          | none => simp only [hw, Option.map_none']
          | some o =>
            simp only [hw, Option.map_some']
            rw [stripOut_consOut]
            simp only [renderSeg]
            rw [if_neg he1]
        · rw [if_neg hst, if_neg hst]
          cases hr : readUInt16BE buf (i+2) with
          | none => simp only [hr]; rfl
          | some len =>
            simp only [hr]
            rw [ih]
            cases hw : walkSegsF f buf (i + 2 + len) with
            | none => simp only [hw, Option.map_none']
            | some o =>
              simp only [hw, Option.map_some']
              rw [stripOut_consOut]
              simp only [renderSeg]
              rw [if_neg he1]

lemma map_consOut_sos {w : Option WalkOut} {seg : MarkerSegment}
    {segs : List MarkerSegment} {s : Nat}
    (h : w.map (consOut seg) = some (.sos segs s)) :
    ∃ segs', w = some (.sos segs' s) ∧ segs = seg :: segs' := by
  cases w with
  | none => simp at h
  | some o =>
    cases o with
    | sos segs' s' =>
      simp only [Option.map_some', consOut, Option.some.injEq, WalkOut.sos.injEq] at h
      exact ⟨segs', by rw [h.2], h.1.symm⟩
    | ended segs' => simp [consOut] at h
    | bad => simp [consOut] at h

lemma map_consOut_ended {w : Option WalkOut} {seg : MarkerSegment}
    {segs : List MarkerSegment}
    (h : w.map (consOut seg) = some (.ended segs)) :
    ∃ segs', w = some (.ended segs') ∧ segs = seg :: segs' := by
  cases w with
  | none => simp at h
  | some o =>
    cases o with
    | sos segs' s' => simp [consOut] at h
    | ended segs' =>
      simp only [Option.map_some', consOut, Option.some.injEq, WalkOut.ended.injEq] at h
      exact ⟨segs', rfl, h.symm⟩
    | bad => simp [consOut] at h

lemma renderSegs_eq_sliceSegs (buf : List Nat) (segs : List MarkerSegment)
    (h : ∀ g ∈ segs, g.marker ≠ 0xE1) : renderSegs buf segs = sliceSegs buf segs := by
  induction segs with
  | nil => rfl
  | cons seg rest ih =>
    rw [renderSegs_cons, sliceSegs_cons, ih (fun g hg => h g (List.mem_cons_of_mem seg hg))]
    have hm : seg.marker ≠ 0xE1 := h seg (List.mem_cons_self seg rest)
    rw [renderSeg, if_neg hm, sliceSeg]

/-- Segments recorded by a walk that reaches SOS tile the byte range
from the walk's start offset to the SOS offset, and stay inside it. -/
lemma walk_sos_tiling (f : Nat) : ∀ (buf : List Nat) (i : Nat)
    (segs : List MarkerSegment) (s : Nat),
    walkSegsF f buf i = some (.sos segs s) →
    i ≤ s ∧ s + 2 ≤ buf.length ∧
    sliceSegs buf segs = (buf.drop i).take (s - i) ∧
    ∀ g ∈ segs, i ≤ g.startOffset ∧ g.startOffset + g.totalLength ≤ s := by
  induction f with
  | zero =>
    intro buf i segs s hw
    rw [walkSegsF] at hw
    by_cases hc : i < buf.length - 1
    · rw [if_pos hc] at hw; simp at hw
    · rw [if_neg hc] at hw; simp at hw
  | succ f ih =>
    intro buf i segs s hw
    rw [walkSegsF] at hw
    by_cases hc : i < buf.length - 1
    case neg => rw [if_neg hc] at hw; simp at hw
    case pos =>
    rw [if_pos hc] at hw
    by_cases hff : buf.getD i 0 = 0xFF
    case neg => rw [if_neg hff] at hw; simp at hw
    case pos =>
    rw [if_pos hff] at hw
    by_cases he1 : buf.getD (i+1) 0 = 0xE1
    · rw [if_pos he1] at hw
      cases hr : readUInt16BE buf (i+2) with
      | none => rw [hr] at hw; simp at hw
      | some len =>
        rw [hr] at hw
        simp only [] at hw
        obtain ⟨segs', hw', hsegs⟩ := map_consOut_sos hw
        obtain ⟨h1, h2, h3, h4⟩ := ih buf (i + 2 + len) segs' s hw'
        refine ⟨by omega, h2, ?_, ?_⟩
        · have hs : s - i = (2 + len) + (s - (i + 2 + len)) := by omega
          have hdd : (buf.drop i).drop (2 + len) = buf.drop (i + 2 + len) := by
            rw [List.drop_drop]; congr 1; omega
          have key : (buf.drop i).take (s - i) =
              (buf.drop i).take (2 + len) ++ (buf.drop (i + 2 + len)).take (s - (i + 2 + len)) := by
            rw [hs, List.take_add, hdd]
          rw [hsegs, sliceSegs_cons, h3, key]; rfl
        · intro g hg
          rw [hsegs] at hg
          rcases List.mem_cons.mp hg with hg | hg
          · subst hg
            refine ⟨Nat.le_refl i, ?_⟩
            show i + (2 + len) ≤ s
            omega
          · have := h4 g hg; omega
    · rw [if_neg he1] at hw
      by_cases hda : buf.getD (i+1) 0 = 0xDA
      · rw [if_pos hda] at hw
        simp only [Option.some.injEq, WalkOut.sos.injEq] at hw
        obtain ⟨hsegs, hs⟩ := hw
        subst hsegs; subst hs
        refine ⟨Nat.le_refl i, by omega, ?_, by simp⟩
        simp [sliceSegs]
      · rw [if_neg hda] at hw
        by_cases hst : 0xD0 ≤ buf.getD (i+1) 0 ∧ buf.getD (i+1) 0 ≤ 0xD9
        · rw [if_pos hst] at hw
          obtain ⟨segs', hw', hsegs⟩ := map_consOut_sos hw
          obtain ⟨h1, h2, h3, h4⟩ := ih buf (i + 2) segs' s hw'
          refine ⟨by omega, h2, ?_, ?_⟩
          · have hs : s - i = 2 + (s - (i + 2)) := by omega
            have hdd : (buf.drop i).drop 2 = buf.drop (i + 2) := by
              rw [List.drop_drop]
            have key : (buf.drop i).take (s - i) =
                (buf.drop i).take 2 ++ (buf.drop (i + 2)).take (s - (i + 2)) := by
              rw [hs, List.take_add, hdd]
            rw [hsegs, sliceSegs_cons, h3, key]; rfl
          · intro g hg
            rw [hsegs] at hg
            rcases List.mem_cons.mp hg with hg | hg
            · subst hg
              refine ⟨Nat.le_refl i, ?_⟩
              show i + 2 ≤ s
              omega
            · have := h4 g hg; omega
        · rw [if_neg hst] at hw
          cases hr : readUInt16BE buf (i+2) with
          | none => rw [hr] at hw; simp at hw
          | some len =>
            rw [hr] at hw
            simp only [] at hw
            obtain ⟨segs', hw', hsegs⟩ := map_consOut_sos hw
            obtain ⟨h1, h2, h3, h4⟩ := ih buf (i + 2 + len) segs' s hw'
            refine ⟨by omega, h2, ?_, ?_⟩
            · have hs : s - i = (2 + len) + (s - (i + 2 + len)) := by omega
              have hdd : (buf.drop i).drop (2 + len) = buf.drop (i + 2 + len) := by
                rw [List.drop_drop]; congr 1; omega
              have key : (buf.drop i).take (s - i) =
                  (buf.drop i).take (2 + len) ++ (buf.drop (i + 2 + len)).take (s - (i + 2 + len)) := by
                rw [hs, List.take_add, hdd]
              rw [hsegs, sliceSegs_cons, h3, key]; rfl
            · intro g hg
              rw [hsegs] at hg
              rcases List.mem_cons.mp hg with hg | hg
              · subst hg
                refine ⟨Nat.le_refl i, ?_⟩
                show i + (2 + len) ≤ s
                omega
              · have := h4 g hg; omega

lemma getD_some_iff {buf : List Nat} {i c : Nat} (hc : c ≠ 0) :
    buf.getD i 0 = c ↔ buf[i]? = some c := by
  rw [List.getD_eq_getElem?_getD]
  cases h : buf[i]? with
  | none =>
    constructor
    · intro h0; exact absurd h0.symm hc
    · intro h'; exact absurd h' (by simp)
  | some v => simp

lemma two_byte_decomp {buf : List Nat} {a b : Nat}
    (h0 : buf[0]? = some a) (h1 : buf[1]? = some b) :
    buf = a :: b :: buf.drop 2 := by
  cases buf with
  | nil => simp at h0
  | cons x t =>
    cases t with
    | nil => simp at h1
    | cons y t' =>
      simp only [List.getElem?_cons_zero, Option.some.injEq] at h0
      simp only [List.getElem?_cons_succ, List.getElem?_cons_zero, Option.some.injEq] at h1
      rw [h0, h1]
      rfl

/-- C1: for a JPEG input whose marker walk reaches SOS without anomaly,
`stripExif` returns the SOI marker, every non-APP1 segment verbatim and
in order, then all bytes from the SOS marker to the end of the buffer;
when no APP1 segment was seen the output is the input byte-for-byte. -/
theorem c1_strip_output (buf : List Nat) (segs : List MarkerSegment) (s : Nat)
    (h0 : buf[0]? = some 0xFF) (h1 : buf[1]? = some 0xD8)
    (hw : walkSegsF buf.length buf 2 = some (.sos segs s)) :
    stripExif buf = [0xFF, 0xD8] ++ renderSegs buf segs ++ buf.drop s ∧
    ((∀ g ∈ segs, g.marker ≠ 0xE1) → stripExif buf = buf) := by
  have h0' : buf.getD 0 0 = 0xFF := (getD_some_iff (by decide)).mpr h0
  have h1' : buf.getD 1 0 = 0xD8 := (getD_some_iff (by decide)).mpr h1
  have hstrip : stripJPEGExif buf =
      some ([0xFF, 0xD8] ++ renderSegs buf segs ++ buf.drop s) := by
    rw [stripJPEGExif, stripLoopF_eq_walk, hw]; rfl
  have hm : stripExif buf = [0xFF, 0xD8] ++ renderSegs buf segs ++ buf.drop s := by
    rw [stripExif, if_pos ⟨h0', h1'⟩, hstrip]
  refine ⟨hm, ?_⟩
  intro hne
  obtain ⟨hi, hlen, htile, _⟩ := walk_sos_tiling buf.length buf 2 segs s hw
  rw [hm, renderSegs_eq_sliceSegs buf segs hne, htile]
  have hds : buf.drop s = (buf.drop 2).drop (s - 2) := by
    rw [List.drop_drop]; congr 1; omega
  rw [hds, List.append_assoc, List.take_append_drop]
  exact (two_byte_decomp h0 h1).symm

theorem c1_witness :
    stripExif [0xFF, 0xD8, 0xFF, 0xE0, 0x00, 0x04, 0x01, 0x02, 0xFF, 0xDA, 0x00, 0x00] =
      [0xFF, 0xD8, 0xFF, 0xE0, 0x00, 0x04, 0x01, 0x02, 0xFF, 0xDA, 0x00, 0x00] :=
  (c1_strip_output [0xFF, 0xD8, 0xFF, 0xE0, 0x00, 0x04, 0x01, 0x02, 0xFF, 0xDA, 0x00, 0x00]
    [⟨0xE0, 2, 6⟩] 8 (by decide) (by decide) (by decide)).2 (by decide)

/-- C2: a non-JPEG input passes through `stripExif` unchanged, and on a
walk anomaly (non-`0xFF` marker byte or an out-of-range read) the
original buffer is returned unmodified. -/
theorem c2_passthrough (buf : List Nat) :
    (¬ (buf[0]? = some 0xFF ∧ buf[1]? = some 0xD8) → stripExif buf = buf) ∧
    (walkSegsF buf.length buf 2 = some .bad → stripExif buf = buf) ∧
    (walkSegsF buf.length buf 2 = none → stripExif buf = buf) := by
  refine ⟨?_, ?_, ?_⟩
  · intro h
    rw [stripExif, if_neg]
    intro hgd
    exact h ⟨(getD_some_iff (by decide)).mp hgd.1, (getD_some_iff (by decide)).mp hgd.2⟩
  · intro hb
    rw [stripExif]
    split
    · have hs : stripJPEGExif buf = some buf := by
        rw [stripJPEGExif, stripLoopF_eq_walk, hb]; rfl
      rw [hs]
    · rfl
  · intro hn
    rw [stripExif]
    split
    · have hs : stripJPEGExif buf = none := by
        rw [stripJPEGExif, stripLoopF_eq_walk, hn]; rfl
      rw [hs]
    · rfl

theorem c2_witness :
    stripExif [0x89, 0x50] = [0x89, 0x50] ∧
    stripExif [0xFF, 0xD8, 0x00, 0x05, 0x06] = [0xFF, 0xD8, 0x00, 0x05, 0x06] ∧
    stripExif [0xFF, 0xD8, 0xFF, 0xE0, 0x00] = [0xFF, 0xD8, 0xFF, 0xE0, 0x00] :=
  ⟨(c2_passthrough [0x89, 0x50]).1 (by decide),
   (c2_passthrough [0xFF, 0xD8, 0x00, 0x05, 0x06]).2.1 (by decide),
   (c2_passthrough [0xFF, 0xD8, 0xFF, 0xE0, 0x00]).2.2 (by decide)⟩

lemma getD_append_left (a b : List Nat) (k d : Nat) (hk : k < a.length) :
    (a ++ b).getD k d = a.getD k d := by
  rw [List.getD_eq_getElem?_getD, List.getElem?_append_left hk, ← List.getD_eq_getElem?_getD]

lemma getD_append_self (a b : List Nat) (d : Nat) : (a ++ b).getD a.length d = b.getD 0 d := by
  have h := getD_append_right a b 0 d
  simpa using h

lemma renderSeg_mk (buf : List Nat) (m off n : Nat) :
    renderSeg buf ⟨m, off, n⟩ = if m = 0xE1 then [] else (buf.drop off).take n := rfl

lemma read_chunk (front R x : List Nat) (i n k d : Nat) (hk : k < n) (hix : i + k < x.length) :
    (front ++ ((x.drop i).take n ++ R)).getD (front.length + k) d = x.getD (i + k) d := by
  rw [getD_append_right]
  have hlen : k < ((x.drop i).take n).length := by
    rw [List.length_take, List.length_drop]; omega
  rw [getD_append_left _ _ _ _ hlen, getD_take _ _ _ _ hk, getD_drop]

lemma read_chunk_zero (front R x : List Nat) (i n d : Nat) (hn : 0 < n) (hix : i < x.length) :
    (front ++ ((x.drop i).take n ++ R)).getD front.length d = x.getD i d := by
  have h := read_chunk front R x i n 0 d hn (by omega)
  simpa using h

lemma read_chunk2 (front x : List Nat) (i n k d : Nat) (hk : k < n) :
    (front ++ (x.drop i).take n).getD (front.length + k) d = x.getD (i + k) d := by
  rw [getD_append_right, getD_take _ _ _ _ hk, getD_drop]

lemma read_chunk2_zero (front x : List Nat) (i n d : Nat) (hn : 0 < n) :
    (front ++ (x.drop i).take n).getD front.length d = x.getD i d := by
  have h := read_chunk2 front x i n 0 d hn
  simpa using h

lemma readUInt16BE_eq_some {x : List Nat} {i len : Nat} (h : readUInt16BE x i = some len) :
    i + 2 ≤ x.length ∧ len = x.getD i 0 * 256 + x.getD (i+1) 0 := by
  rw [readUInt16BE] at h
  by_cases hb : i + 2 ≤ x.length
  · rw [if_pos hb] at h
    exact ⟨hb, (Option.some.inj h).symm⟩
  · rw [if_neg hb] at h
    exact absurd h (by simp)

lemma map_consOut_some {w : Option WalkOut} {seg : MarkerSegment} {o : WalkOut}
    (h : w.map (consOut seg) = some o) :
    ∃ o', w = some o' ∧ o = consOut seg o' := by
  cases w with
  | none => simp at h
  | some o'' => exact ⟨o'', rfl, (Option.some.inj h).symm⟩

lemma consOut_ne_bad {seg : MarkerSegment} {o' : WalkOut} (h : consOut seg o' ≠ .bad) :
    o' ≠ .bad := by
  intro hb
  rw [hb] at h
  exact h rfl

lemma walkBytes_consOut (x : List Nat) (seg : MarkerSegment) (o' : WalkOut)
    (ho' : o' ≠ .bad) :
    walkBytes x (consOut seg o') = renderSeg x seg ++ walkBytes x o' := by
  cases o' with
  | sos segs s => simp [walkBytes, consOut, renderSegs_cons]
  | ended segs => simp [walkBytes, consOut, renderSegs_cons]
  | bad => exact absurd rfl ho'

lemma walk_stopped (f : Nat) (x : List Nat) (j : Nat) (hj : ¬ j < x.length - 1) :
    walkSegsF f x j = some (.ended []) := by
  cases f <;> rw [walkSegsF, if_neg hj]

lemma stripLoopF_stopped (f : Nat) (y : List Nat) (j : Nat) (acc : List Nat)
    (hj : ¬ j < y.length - 1) : stripLoopF f y j acc = some acc := by
  cases f <;> rw [stripLoopF, if_neg hj]

lemma walk_head_ff (f : Nat) (x : List Nat) (j : Nat) (o : WalkOut)
    (hw : walkSegsF f x j = some o) (ho : o ≠ .bad) (hj : j < x.length - 1) :
    x.getD j 0 = 0xFF := by
  cases f with
  | zero =>
    rw [walkSegsF, if_pos hj] at hw
    exact absurd hw (by simp)
  | succ f =>
    rw [walkSegsF, if_pos hj] at hw
    by_cases hff : x.getD j 0 = 0xFF
    · exact hff
    · rw [if_neg hff] at hw
      exact absurd (Option.some.inj hw).symm ho

/-- Rewalking a stripped output: if a walk on `x` completed (did not hit
the invalid-structure fallback), then running the stripper loop on the
produced buffer from any position that starts right after an arbitrary
prefix either reproduces the buffer unchanged or throws; it never
produces a third value.  This is the engine behind idempotence. -/
lemma rewalk (f : Nat) : ∀ (x : List Nat) (i : Nat) (o : WalkOut) (front : List Nat)
    (f2 : Nat),
    walkSegsF f x i = some o → o ≠ .bad → (walkBytes x o).length ≤ f2 →
    stripLoopF f2 (front ++ walkBytes x o) front.length front
      = some (front ++ walkBytes x o) ∨
    stripLoopF f2 (front ++ walkBytes x o) front.length front = none := by
  induction f with
  | zero =>
    intro x i o front f2 hw ho hb
    rw [walkSegsF] at hw
    by_cases hc : i < x.length - 1
    · rw [if_pos hc] at hw; exact absurd hw (by simp)
    · rw [if_neg hc] at hw
      have ho' : o = .ended [] := (Option.some.inj hw).symm
      subst ho'
      left
      have hwb : walkBytes x (WalkOut.ended []) = [] := rfl
      rw [hwb, List.append_nil]
      exact stripLoopF_stopped f2 front front.length front (by omega)
  | succ f ih =>
    intro x i o front f2 hw ho hb
    rw [walkSegsF] at hw
    by_cases hc : i < x.length - 1
    case neg =>
      rw [if_neg hc] at hw
      have ho' : o = .ended [] := (Option.some.inj hw).symm
      subst ho'
      left
      have hwb : walkBytes x (WalkOut.ended []) = [] := rfl
      rw [hwb, List.append_nil]
      exact stripLoopF_stopped f2 front front.length front (by omega)
    case pos =>
    rw [if_pos hc] at hw
    by_cases hff : x.getD i 0 = 0xFF
    case neg =>
      rw [if_neg hff] at hw
      exact absurd (Option.some.inj hw).symm ho
    case pos =>
    rw [if_pos hff] at hw
    by_cases he1 : x.getD (i+1) 0 = 0xE1
    · rw [if_pos he1] at hw
      cases hr : readUInt16BE x (i+2) with
      | none => rw [hr] at hw; exact absurd hw (by simp)
      | some len =>
        rw [hr] at hw
        simp only [] at hw
        obtain ⟨o', hw', ho'⟩ := map_consOut_some hw
        rw [ho'] at ho
        have hnb := consOut_ne_bad ho
        have hwb : walkBytes x o = walkBytes x o' := by
          rw [ho', walkBytes_consOut x _ o' hnb, renderSeg_mk, if_pos rfl, List.nil_append]
        rw [hwb] at hb ⊢
        exact ih x (i + 2 + len) o' front f2 hw' hnb hb
    · rw [if_neg he1] at hw
      by_cases hda : x.getD (i+1) 0 = 0xDA
      · rw [if_pos hda] at hw
        have ho' : o = .sos [] i := (Option.some.inj hw).symm
        subst ho'
        have hwb : walkBytes x (WalkOut.sos [] i) = x.drop i := by
          simp [walkBytes, renderSegs]
        rw [hwb] at hb ⊢
        have hdl : (x.drop i).length = x.length - i := by rw [List.length_drop]
        rcases f2 with _ | f2'
        · exfalso; omega
        · left
          have hcy : front.length < (front ++ x.drop i).length - 1 := by
            rw [List.length_append, hdl]; omega
          rw [stripLoopF, if_pos hcy]
          have e0 : (front ++ x.drop i).getD front.length 0 = 0xFF := by
            rw [getD_append_self, getD_drop, Nat.add_zero]; exact hff
          have e1 : (front ++ x.drop i).getD (front.length + 1) 0 = 0xDA := by
            rw [getD_append_right, getD_drop]; exact hda
          rw [e0, if_pos rfl, e1, if_neg (by decide), if_pos rfl, List.drop_left]
      · rw [if_neg hda] at hw
        by_cases hst : 0xD0 ≤ x.getD (i+1) 0 ∧ x.getD (i+1) 0 ≤ 0xD9
        · rw [if_pos hst] at hw
          obtain ⟨o', hw', ho'⟩ := map_consOut_some hw
          rw [ho'] at ho
          have hnb := consOut_ne_bad ho
          have hwb : walkBytes x o = (x.drop i).take 2 ++ walkBytes x o' := by
            rw [ho', walkBytes_consOut x _ o' hnb, renderSeg_mk, if_neg he1]
          rw [hwb] at hb ⊢
          have hchlen : ((x.drop i).take 2).length = 2 := by
            rw [List.length_take, List.length_drop]; omega
          rw [List.length_append, hchlen] at hb
          rcases f2 with _ | f2'
          · exfalso; omega
          · have hcy : front.length <
                (front ++ ((x.drop i).take 2 ++ walkBytes x o')).length - 1 := by
              rw [List.length_append, List.length_append, hchlen]; omega
            rw [stripLoopF, if_pos hcy]
            have e0 := read_chunk_zero front (walkBytes x o') x i 2 0 (by omega) (by omega)
            have e1 := read_chunk front (walkBytes x o') x i 2 1 0 (by omega) (by omega)
            rw [e0, if_pos hff, e1, if_neg he1, if_neg hda, if_pos hst]
            have hass : front ++ ((x.drop i).take 2 ++ walkBytes x o')
                = (front ++ (x.drop i).take 2) ++ walkBytes x o' :=
              (List.append_assoc front _ _).symm
            have hplen : front.length + 2 = (front ++ (x.drop i).take 2).length := by
              rw [List.length_append, hchlen]
            rw [List.drop_left, List.take_left' hchlen, hplen, hass]
            exact ih x (i + 2) o' (front ++ (x.drop i).take 2) f2' hw' hnb (by omega)
        · rw [if_neg hst] at hw
          cases hr : readUInt16BE x (i+2) with
          | none => rw [hr] at hw; exact absurd hw (by simp)
          | some len =>
            rw [hr] at hw
            simp only [] at hw
            obtain ⟨o', hw', ho'⟩ := map_consOut_some hw
            rw [ho'] at ho
            have hnb := consOut_ne_bad ho
            have hr' := readUInt16BE_eq_some hr
            have hxi4 : i + 4 ≤ x.length := hr'.1
            have hlenval : len = x.getD (i + 2) 0 * 256 + x.getD (i + 3) 0 := hr'.2
            have hwb : walkBytes x o = (x.drop i).take (2 + len) ++ walkBytes x o' := by
              rw [ho', walkBytes_consOut x _ o' hnb, renderSeg_mk, if_neg he1]
            rw [hwb] at hb ⊢
            by_cases hcont : i + 2 + len < x.length - 1
            · -- the walk continues after this segment: no clamping, len ≥ 2
              have hffn : x.getD (i + 2 + len) 0 = 0xFF :=
                walk_head_ff f x (i + 2 + len) o' hw' hnb hcont
              have hlen2 : 2 ≤ len := by
                by_contra hlt
                push_neg at hlt
                have hcase : len = 0 ∨ len = 1 := by omega
                rcases hcase with hl | hl
                · subst hl
                  have hffn' : x.getD (i + 2) 0 = 0xFF := by
                    have h := hffn
                    rw [Nat.add_zero] at h
                    exact h
                  omega
                · subst hl
                  have hffn' : x.getD (i + 3) 0 = 0xFF := hffn
                  omega
              have hchlen : ((x.drop i).take (2 + len)).length = 2 + len := by
                rw [List.length_take, List.length_drop]; omega
              rw [List.length_append, hchlen] at hb
              rcases f2 with _ | f2'
              · exfalso; omega
              · have hcy : front.length <
                    (front ++ ((x.drop i).take (2 + len) ++ walkBytes x o')).length - 1 := by
                  rw [List.length_append, List.length_append, hchlen]; omega
                rw [stripLoopF, if_pos hcy]
                have e0 := read_chunk_zero front (walkBytes x o') x i (2 + len) 0
                  (by omega) (by omega)
                have e1 := read_chunk front (walkBytes x o') x i (2 + len) 1 0
                  (by omega) (by omega)
                rw [e0, if_pos hff, e1, if_neg he1, if_neg hda, if_neg hst]
                have er : readUInt16BE (front ++ ((x.drop i).take (2 + len) ++ walkBytes x o'))
                    (front.length + 2) = some len := by
                  rw [readUInt16BE, if_pos (by
                    rw [List.length_append, List.length_append, hchlen]; omega)]
                  have e2 := read_chunk front (walkBytes x o') x i (2 + len) 2 0
                    (by omega) (by omega)
                  have e3 := read_chunk front (walkBytes x o') x i (2 + len) 3 0
                    (by omega) (by omega)
                  have hidx : front.length + 2 + 1 = front.length + 3 := rfl
                  rw [e2, hidx, e3, hlenval]
                rw [er]
                simp only []
                have hass : front ++ ((x.drop i).take (2 + len) ++ walkBytes x o')
                    = (front ++ (x.drop i).take (2 + len)) ++ walkBytes x o' :=
                  (List.append_assoc front _ _).symm
                have hplen : front.length + 2 + len
                    = (front ++ (x.drop i).take (2 + len)).length := by
                  rw [List.length_append, hchlen]; omega
                rw [List.drop_left, List.take_left' hchlen, hplen, hass]
                exact ih x (i + 2 + len) o' (front ++ (x.drop i).take (2 + len)) f2'
                  hw' hnb (by omega)
            · -- the walk stops right after this segment, possibly clamped
              have ho'' : o' = .ended [] := by
                have hstop := walk_stopped f x (i + 2 + len) hcont
                rw [hstop] at hw'
                exact (Option.some.inj hw').symm
              subst ho''
              have hwbe : walkBytes x (WalkOut.ended []) = [] := rfl
              rw [hwbe, List.append_nil] at hb ⊢
              have hchlen2 : ((x.drop i).take (2 + len)).length = min (2 + len) (x.length - i) := by
                rw [List.length_take, List.length_drop]
              rcases f2 with _ | f2'
              · exfalso
                rw [hchlen2] at hb
                omega
              · have hcy : front.length < (front ++ (x.drop i).take (2 + len)).length - 1 := by
                  rw [List.length_append, hchlen2]; omega
                rw [stripLoopF, if_pos hcy]
                have e0 := read_chunk2_zero front x i (2 + len) 0 (by omega)
                have e1 := read_chunk2 front x i (2 + len) 1 0 (by omega)
                rw [e0, if_pos hff, e1, if_neg he1, if_neg hda, if_neg hst]
                by_cases hlen2 : 2 ≤ len
                · have er : readUInt16BE (front ++ (x.drop i).take (2 + len))
                      (front.length + 2) = some len := by
                    rw [readUInt16BE, if_pos (by
                      rw [List.length_append, hchlen2]; omega)]
                    have e2 := read_chunk2 front x i (2 + len) 2 0 (by omega)
                    have e3 := read_chunk2 front x i (2 + len) 3 0 (by omega)
                    have hidx : front.length + 2 + 1 = front.length + 3 := rfl
                    rw [e2, hidx, e3, hlenval]
                  rw [er]
                  simp only []
                  have htk : ((x.drop i).take (2 + len)).take (2 + len)
                      = (x.drop i).take (2 + len) := by
                    apply List.take_of_length_le
                    rw [hchlen2]; omega
                  rw [List.drop_left, htk]
                  rw [stripLoopF_stopped f2' _ _ _ (by
                    rw [List.length_append, hchlen2]; omega)]
                  exact Or.inl rfl
                · have er : readUInt16BE (front ++ (x.drop i).take (2 + len))
                      (front.length + 2) = none := by
                    rw [readUInt16BE, if_neg (by
                      rw [List.length_append, hchlen2]; omega)]
                  rw [er]
                  simp only []
                  exact Or.inr trivial

lemma stripOut_eq_walkBytes (buf acc : List Nat) (o : WalkOut) (ho : o ≠ .bad) :
    stripOut buf acc o = acc ++ walkBytes buf o := by
  cases o with
  | sos segs s => simp [stripOut, walkBytes]
  | ended segs => rfl
  | bad => exact absurd rfl ho

/-- C3: `stripExif` is idempotent on every byte sequence: a second pass
over an already-stripped buffer changes nothing. -/
theorem c3_stripExif_idempotent (buf : List Nat) :
    stripExif (stripExif buf) = stripExif buf := by
  by_cases hj : buf.getD 0 0 = 0xFF ∧ buf.getD 1 0 = 0xD8
  case neg =>
    have h : stripExif buf = buf := by rw [stripExif, if_neg hj]
    rw [h, h]
  case pos =>
    cases hwo : walkSegsF buf.length buf 2 with
    | none =>
      have h : stripExif buf = buf := by
        rw [stripExif, if_pos hj]
        have hs : stripJPEGExif buf = none := by
          rw [stripJPEGExif, stripLoopF_eq_walk, hwo]; rfl
        rw [hs]
      rw [h, h]
    | some o =>
      by_cases hbad : o = WalkOut.bad
      · subst hbad
        have h : stripExif buf = buf := by
          rw [stripExif, if_pos hj]
          have hs : stripJPEGExif buf = some buf := by
            rw [stripJPEGExif, stripLoopF_eq_walk, hwo]; rfl
          rw [hs]
        rw [h, h]
      · have hy : stripExif buf = [0xFF, 0xD8] ++ walkBytes buf o := by
          rw [stripExif, if_pos hj]
          have hs : stripJPEGExif buf = some ([0xFF, 0xD8] ++ walkBytes buf o) := by
            rw [stripJPEGExif, stripLoopF_eq_walk, hwo]
            simp only [Option.map_some']
            rw [stripOut_eq_walkBytes buf [0xFF, 0xD8] o hbad]
          rw [hs]
        have h2 : stripExif ([0xFF, 0xD8] ++ walkBytes buf o)
            = [0xFF, 0xD8] ++ walkBytes buf o := by
          rw [stripExif, if_pos ⟨rfl, rfl⟩]
          have hrw := rewalk buf.length buf 2 o [0xFF, 0xD8]
            (([0xFF, 0xD8] ++ walkBytes buf o).length) hwo hbad
            (by rw [List.length_append]; omega)
          have hlen2 : ([0xFF, 0xD8] : List Nat).length = 2 := rfl
          rw [hlen2] at hrw
          rcases hrw with h | h
          · rw [stripJPEGExif, h]
          · rw [stripJPEGExif, h]
        rw [hy, h2]

lemma getD_agree {x x' : List Nat} {k : Nat} (h : x'.take k = x.take k) {j : Nat}
    (hj : j < k) (d : Nat) : x'.getD j d = x.getD j d := by
  have h1 : (x'.take k).getD j d = (x.take k).getD j d := by rw [h]
  rw [getD_take _ _ _ _ hj, getD_take _ _ _ _ hj] at h1
  exact h1

lemma slice_agree {x x' : List Nat} {k off n : Nat} (h : x'.take k = x.take k)
    (hbnd : off + n ≤ k) :
    (x'.drop off).take n = (x.drop off).take n := by
  have e : ∀ z : List Nat, ((z.take k).drop off).take n = (z.drop off).take n := by
    intro z
    rw [List.drop_take, List.take_take]
    congr 1
    omega
  calc (x'.drop off).take n = ((x'.take k).drop off).take n := (e x').symm
    _ = ((x.take k).drop off).take n := by rw [h]
    _ = (x.drop off).take n := e x

lemma renderSegs_agree {x x' : List Nat} {k : Nat} (h : x'.take k = x.take k)
    (segs : List MarkerSegment)
    (hb : ∀ g ∈ segs, g.startOffset + g.totalLength ≤ k) :
    renderSegs x' segs = renderSegs x segs := by
  induction segs with
  | nil => rfl
  | cons seg rest ih =>
    rw [renderSegs_cons, renderSegs_cons,
      ih (fun g hg => hb g (List.mem_cons_of_mem seg hg))]
    congr 1
    rw [renderSeg, renderSeg]
    by_cases hm : seg.marker = 0xE1
    · rw [if_pos hm, if_pos hm]
    · rw [if_neg hm, if_neg hm]
      exact slice_agree h (hb seg (List.mem_cons_self seg rest))

/-- The stripper walk reads no byte beyond the SOS marker: on any other
buffer agreeing with `x` on the bytes up to and including SOS, the walk
reaches SOS at the same offset with the same segment list. -/
lemma walk_det (f : Nat) : ∀ (x x' : List Nat) (i : Nat) (segs : List MarkerSegment)
    (s f' : Nat),
    walkSegsF f x i = some (.sos segs s) →
    x'.take (s + 2) = x.take (s + 2) →
    s + 2 ≤ x'.length →
    s + 2 ≤ i + 2 * f' →
    walkSegsF f' x' i = some (.sos segs s) := by
  induction f with
  | zero =>
    intro x x' i segs s f' hw _ _ _
    rw [walkSegsF] at hw
    by_cases hc : i < x.length - 1
    · rw [if_pos hc] at hw; exact absurd hw (by simp)
    · rw [if_neg hc] at hw; exact absurd hw (by simp)
  | succ f ih =>
    intro x x' i segs s f' hw hagree hxlen hfuel
    obtain ⟨his, hslen, _, _⟩ := walk_sos_tiling (f+1) x i segs s hw
    rw [walkSegsF] at hw
    by_cases hc : i < x.length - 1
    case neg => rw [if_neg hc] at hw; exact absurd hw (by simp)
    case pos =>
    rw [if_pos hc] at hw
    by_cases hff : x.getD i 0 = 0xFF
    case neg => rw [if_neg hff] at hw; exact absurd hw (by simp)
    case pos =>
    rw [if_pos hff] at hw
    rcases f' with _ | f''
    · omega
    have hc' : i < x'.length - 1 := by omega
    have e0 : x'.getD i 0 = x.getD i 0 := getD_agree hagree (by omega) 0
    have e1 : x'.getD (i+1) 0 = x.getD (i+1) 0 := getD_agree hagree (by omega) 0
    rw [walkSegsF, if_pos hc', e0, if_pos hff, e1]
    by_cases he1 : x.getD (i+1) 0 = 0xE1
    · rw [if_pos he1] at hw
      rw [if_pos he1]
      cases hr : readUInt16BE x (i+2) with
      | none => rw [hr] at hw; exact absurd hw (by simp)
      | some len =>
        rw [hr] at hw
        simp only [] at hw
        obtain ⟨segs', hw', hsegs⟩ := map_consOut_sos hw
        obtain ⟨his', _, _, _⟩ := walk_sos_tiling f x (i + 2 + len) segs' s hw'
        have hrb := readUInt16BE_eq_some hr
        have er : readUInt16BE x' (i+2) = some len := by
          rw [readUInt16BE, if_pos (by omega)]
          rw [getD_agree hagree (by omega) 0, getD_agree hagree (by omega) 0, hrb.2]
        rw [er]
        simp only []
        rw [ih x x' (i + 2 + len) segs' s f'' hw' hagree hxlen (by omega)]
        simp only [Option.map_some']
        rw [hsegs]; rfl
    · rw [if_neg he1] at hw
      rw [if_neg he1]
      by_cases hda : x.getD (i+1) 0 = 0xDA
      · rw [if_pos hda] at hw
        rw [if_pos hda]
        simp only [Option.some.injEq, WalkOut.sos.injEq] at hw
        rw [hw.1, hw.2]
      · rw [if_neg hda] at hw
        rw [if_neg hda]
        by_cases hst : 0xD0 ≤ x.getD (i+1) 0 ∧ x.getD (i+1) 0 ≤ 0xD9
        · rw [if_pos hst] at hw
          rw [if_pos hst]
          obtain ⟨segs', hw', hsegs⟩ := map_consOut_sos hw
          rw [ih x x' (i + 2) segs' s f'' hw' hagree hxlen (by omega)]
          simp only [Option.map_some']
          rw [hsegs]; rfl
        · rw [if_neg hst] at hw
          rw [if_neg hst]
          cases hr : readUInt16BE x (i+2) with
          | none => rw [hr] at hw; exact absurd hw (by simp)
          | some len =>
            rw [hr] at hw
            simp only [] at hw
            obtain ⟨segs', hw', hsegs⟩ := map_consOut_sos hw
            obtain ⟨his', _, _, _⟩ := walk_sos_tiling f x (i + 2 + len) segs' s hw'
            have hrb := readUInt16BE_eq_some hr
            have er : readUInt16BE x' (i+2) = some len := by
              rw [readUInt16BE, if_pos (by omega)]
              rw [getD_agree hagree (by omega) 0, getD_agree hagree (by omega) 0, hrb.2]
            rw [er]
            simp only []
            rw [ih x x' (i + 2 + len) segs' s f'' hw' hagree hxlen (by omega)]
            simp only [Option.map_some']
            rw [hsegs]; rfl

/-- C8 (amended): in the EXIF stripper's walk, once the first SOS marker
is reached the walk terminates and no byte past SOS is read: every
buffer agreeing with `x` up to and including the SOS marker is stripped
to the same prefix followed by its own verbatim tail, and the copied
segments are bytewise identical. -/
theorem c8_stripper_sos_opaque (x x' : List Nat) (segs : List MarkerSegment) (s : Nat)
    (hw : walkSegsF x.length x 2 = some (.sos segs s))
    (hagree : x'.take (s + 2) = x.take (s + 2))
    (hlen : s + 2 ≤ x'.length) :
    stripJPEGExif x' = some ([0xFF, 0xD8] ++ renderSegs x' segs ++ x'.drop s) ∧
    renderSegs x' segs = renderSegs x segs := by
  have hdet : walkSegsF x'.length x' 2 = some (.sos segs s) :=
    walk_det x.length x x' 2 segs s x'.length hw hagree hlen (by omega)
  constructor
  · rw [stripJPEGExif, stripLoopF_eq_walk, hdet]
    rfl
  · obtain ⟨_, _, _, hb⟩ := walk_sos_tiling x.length x 2 segs s hw
    exact renderSegs_agree hagree segs (fun g hg => by have := hb g hg; omega)

theorem c8_witness :
    stripJPEGExif [0xFF, 0xD8, 0xFF, 0xE0, 0x00, 0x04, 0x01, 0x02, 0xFF, 0xDA, 7, 7, 7, 7] =
      some ([0xFF, 0xD8] ++
        renderSegs [0xFF, 0xD8, 0xFF, 0xE0, 0x00, 0x04, 0x01, 0x02, 0xFF, 0xDA, 7, 7, 7, 7]
          [⟨0xE0, 2, 6⟩] ++
        List.drop 8 [0xFF, 0xD8, 0xFF, 0xE0, 0x00, 0x04, 0x01, 0x02, 0xFF, 0xDA, 7, 7, 7, 7]) ∧
    renderSegs [0xFF, 0xD8, 0xFF, 0xE0, 0x00, 0x04, 0x01, 0x02, 0xFF, 0xDA, 7, 7, 7, 7]
        [⟨0xE0, 2, 6⟩] =
      renderSegs [0xFF, 0xD8, 0xFF, 0xE0, 0x00, 0x04, 0x01, 0x02, 0xFF, 0xDA, 0x00, 0x00]
        [⟨0xE0, 2, 6⟩] :=
  c8_stripper_sos_opaque [0xFF, 0xD8, 0xFF, 0xE0, 0x00, 0x04, 0x01, 0x02, 0xFF, 0xDA, 0x00, 0x00]
    [0xFF, 0xD8, 0xFF, 0xE0, 0x00, 0x04, 0x01, 0x02, 0xFF, 0xDA, 7, 7, 7, 7]
    [⟨0xE0, 2, 6⟩] 8 (by decide) (by decide) (by decide)

theorem c8_counterexample :
    List.take 4 [0xFF, 0xD8, 0xFF, 0xDA, 0x00, 0x04, 0xAA, 0xBB, 0xFF, 0xE1, 0x00, 0x03, 0xCC, 0xDD] =
      List.take 4 [0xFF, 0xD8, 0xFF, 0xDA, 0x00, 0x04, 0xAA, 0xBB, 0x00, 0x00, 0x00, 0x00, 0x00, 0x00] ∧
    walkSegsF 14 [0xFF, 0xD8, 0xFF, 0xDA, 0x00, 0x04, 0xAA, 0xBB, 0xFF, 0xE1, 0x00, 0x03, 0xCC, 0xDD] 2 =
      some (.sos [] 2) ∧
    walkSegsF 14 [0xFF, 0xD8, 0xFF, 0xDA, 0x00, 0x04, 0xAA, 0xBB, 0x00, 0x00, 0x00, 0x00, 0x00, 0x00] 2 =
      some (.sos [] 2) ∧
    (getImageInfo [0xFF, 0xD8, 0xFF, 0xDA, 0x00, 0x04, 0xAA, 0xBB, 0xFF, 0xE1, 0x00, 0x03, 0xCC, 0xDD]).hasExif
      = true ∧
    (getImageInfo [0xFF, 0xD8, 0xFF, 0xDA, 0x00, 0x04, 0xAA, 0xBB, 0x00, 0x00, 0x00, 0x00, 0x00, 0x00]).hasExif
      = false := by decide

/-- The metadata scan loop, related to its first-SOF0 abstraction: it
throws exactly when the abstraction does outside a SOF0 segment, returns
`(e, 0, 0)` when the walk finds no SOF0, and otherwise reads the
dimensions at fixed offsets of the first SOF0 offset, throwing when that
read crosses the end of the buffer. -/
lemma infoLoop_shape (f : Nat) : ∀ (buf : List Nat) (i : Nat) (e : Bool),
    (infoWalk f buf i = none ∧ infoLoop f buf i e = none) ∨
    (∃ e', infoWalk f buf i = some none ∧ infoLoop f buf i e = some (e', 0, 0)) ∨
    (∃ o, infoWalk f buf i = some (some o) ∧
      ((∃ e' hgt wdt, readUInt16BE buf (o+5) = some hgt ∧
          readUInt16BE buf (o+7) = some wdt ∧
          infoLoop f buf i e = some (e', wdt, hgt)) ∨
        (infoLoop f buf i e = none ∧
          (readUInt16BE buf (o+5) = none ∨ readUInt16BE buf (o+7) = none)))) := by
  induction f with
  | zero =>
    intro buf i e
    by_cases hc : i < min (buf.length - 1) 1000
    · left
      exact ⟨by rw [infoWalk, if_pos hc], by rw [infoLoop, if_pos hc]⟩
    · right; left
      exact ⟨e, by rw [infoWalk, if_neg hc], by rw [infoLoop, if_neg hc]⟩
  | succ f ih =>
    intro buf i e
    by_cases hc : i < min (buf.length - 1) 1000
    case neg =>
      right; left
      exact ⟨e, by rw [infoWalk, if_neg hc], by rw [infoLoop, if_neg hc]⟩
    case pos =>
    by_cases hff : buf.getD i 0 = 0xFF
    case neg =>
      right; left
      exact ⟨e, by rw [infoWalk, if_pos hc, if_neg hff],
        by rw [infoLoop, if_pos hc, if_neg hff]⟩
    case pos =>
    by_cases hc0 : buf.getD (i+1) 0 = 0xC0
    · right; right
      refine ⟨i, by rw [infoWalk, if_pos hc, if_pos hff, if_pos hc0], ?_⟩
      cases h5 : readUInt16BE buf (i+5) with
      | none =>
        right
        refine ⟨?_, Or.inl rfl⟩
        rw [infoLoop, if_pos hc, if_pos hff, if_pos hc0]
        simp only [h5]
      | some hgt =>
        cases h7 : readUInt16BE buf (i+7) with
        | none =>
          right
          refine ⟨?_, Or.inr rfl⟩
          rw [infoLoop, if_pos hc, if_pos hff, if_pos hc0]
          simp only [h5, h7]
        | some wdt =>
          left
          refine ⟨e || decide (buf.getD (i+1) 0 = 0xE1), hgt, wdt, rfl, rfl, ?_⟩
          rw [infoLoop, if_pos hc, if_pos hff, if_pos hc0]
          simp only [h5, h7]
    · by_cases hst : 0xD0 ≤ buf.getD (i+1) 0 ∧ buf.getD (i+1) 0 ≤ 0xD9
      · have hwEq : infoWalk (f+1) buf i = infoWalk f buf (i+2) := by
          rw [infoWalk, if_pos hc, if_pos hff, if_neg hc0, if_pos hst]
        have hlEq : infoLoop (f+1) buf i e
            = infoLoop f buf (i+2) (e || decide (buf.getD (i+1) 0 = 0xE1)) := by
          rw [infoLoop, if_pos hc, if_pos hff, if_neg hc0, if_pos hst]
        rw [hwEq, hlEq]
        exact ih buf (i+2) _
      · cases hr : readUInt16BE buf (i+2) with
        | none =>
          left
          constructor
          · rw [infoWalk, if_pos hc, if_pos hff, if_neg hc0, if_neg hst]
            simp only [hr]
          · rw [infoLoop, if_pos hc, if_pos hff, if_neg hc0, if_neg hst]
            simp only [hr]
        | some len =>
          have hwEq : infoWalk (f+1) buf i = infoWalk f buf (i+2+len) := by
            rw [infoWalk, if_pos hc, if_pos hff, if_neg hc0, if_neg hst]
            simp only [hr]
          have hlEq : infoLoop (f+1) buf i e
              = infoLoop f buf (i+2+len) (e || decide (buf.getD (i+1) 0 = 0xE1)) := by
            rw [infoLoop, if_pos hc, if_pos hff, if_neg hc0, if_neg hst]
            simp only [hr]
          rw [hwEq, hlEq]
          exact ih buf (i+2+len) _

/-- C4 (amended): for a JPEG buffer, `getImageInfo` takes its dimensions
from the first SOF0 segment (marker `0xC0` only) found by the bounded
scan — height from the big-endian 16-bit value at segment offset `+5`,
width at offset `+7` — and reports `(0, 0)` when the scan exits without
a SOF0. -/
theorem c4_first_sof0_dimensions (buf : List Nat) (o hgt wdt : Nat) :
    (buf[0]? = some 0xFF → buf[1]? = some 0xD8 →
      infoWalk buf.length buf 2 = some (some o) →
      readUInt16BE buf (o+5) = some hgt →
      readUInt16BE buf (o+7) = some wdt →
      (getImageInfo buf).format = "jpeg" ∧ (getImageInfo buf).height = hgt ∧
        (getImageInfo buf).width = wdt) ∧
    (buf[0]? = some 0xFF → buf[1]? = some 0xD8 →
      infoWalk buf.length buf 2 = some none →
      ∃ e, getImageInfo buf = ⟨"jpeg", 0, 0, e⟩) := by
  constructor
  · intro h0 h1 hwalk hh hwd
    have hj' : buf.getD 0 0 = 0xFF ∧ buf.getD 1 0 = 0xD8 :=
      ⟨(getD_some_iff (by decide)).mpr h0, (getD_some_iff (by decide)).mpr h1⟩
    rcases infoLoop_shape buf.length buf 2 false with
      ⟨h1', _⟩ | ⟨e', h1', _⟩ | ⟨o', h1', hsub⟩
    · rw [h1'] at hwalk; exact absurd hwalk (by simp)
    · rw [h1'] at hwalk; simp at hwalk
    · rw [h1'] at hwalk
      have ho : o' = o := by simpa using hwalk
      subst ho
      rcases hsub with ⟨e', hgt', wdt', hh', hw', hloop⟩ | ⟨_, herr⟩
      · rw [hh'] at hh
        rw [hw'] at hwd
        have hhh := Option.some.inj hh
        have hww := Option.some.inj hwd
        subst hhh; subst hww
        rw [getImageInfo, if_pos hj', hloop]
        exact ⟨rfl, rfl, rfl⟩
      · rcases herr with h5 | h7
        · rw [h5] at hh; exact absurd hh (by simp)
        · rw [h7] at hwd; exact absurd hwd (by simp)
  · intro h0 h1 hwalk
    have hj' : buf.getD 0 0 = 0xFF ∧ buf.getD 1 0 = 0xD8 :=
      ⟨(getD_some_iff (by decide)).mpr h0, (getD_some_iff (by decide)).mpr h1⟩
    rcases infoLoop_shape buf.length buf 2 false with
      ⟨h1', _⟩ | ⟨e', h1', hloop⟩ | ⟨o', h1', _⟩
    · rw [h1'] at hwalk; exact absurd hwalk (by simp)
    · exact ⟨e', by rw [getImageInfo, if_pos hj', hloop]⟩
    · rw [h1'] at hwalk; simp at hwalk

theorem c4_witness :
    (getImageInfo [0xFF, 0xD8, 0xFF, 0xC0, 0x00, 0x08, 0x09, 0x00, 0x32, 0x00, 0x64, 0x00, 0x00]).format
      = "jpeg" ∧
    (getImageInfo [0xFF, 0xD8, 0xFF, 0xC0, 0x00, 0x08, 0x09, 0x00, 0x32, 0x00, 0x64, 0x00, 0x00]).height
      = 50 ∧
    (getImageInfo [0xFF, 0xD8, 0xFF, 0xC0, 0x00, 0x08, 0x09, 0x00, 0x32, 0x00, 0x64, 0x00, 0x00]).width
      = 100 :=
  (c4_first_sof0_dimensions [0xFF, 0xD8, 0xFF, 0xC0, 0x00, 0x08, 0x09, 0x00, 0x32, 0x00, 0x64, 0x00, 0x00]
    2 50 100).1 (by decide) (by decide) (by decide) (by decide) (by decide)

theorem c4_counterexample :
    specFirstSOFn 13 [0xFF, 0xD8, 0xFF, 0xC2, 0x00, 0x08, 0x09, 0x00, 0x32, 0x00, 0x64, 0x00, 0x00] 2
      = some 2 ∧
    readUInt16BE [0xFF, 0xD8, 0xFF, 0xC2, 0x00, 0x08, 0x09, 0x00, 0x32, 0x00, 0x64, 0x00, 0x00] 7
      = some 50 ∧
    readUInt16BE [0xFF, 0xD8, 0xFF, 0xC2, 0x00, 0x08, 0x09, 0x00, 0x32, 0x00, 0x64, 0x00, 0x00] 9
      = some 100 ∧
    getImageInfo [0xFF, 0xD8, 0xFF, 0xC2, 0x00, 0x08, 0x09, 0x00, 0x32, 0x00, 0x64, 0x00, 0x00]
      = ⟨"jpeg", 0, 0, false⟩ := by decide

/-- C5 (amended): `getImageInfo` never raises and fails soft to
`(0, 0)` on an out-of-range dimension read, but the catch branch
discards the sniffed format: a short PNG-magic buffer and a JPEG with a
truncated SOF0 both come back as format `"unknown"`. -/
theorem c5_soft_fail_unknown (buf : List Nat) (o : Nat) :
    (buf.getD 0 0 = 0x89 ∧ buf.getD 1 0 = 0x50 ∧ buf.getD 2 0 = 0x4E ∧
        buf.getD 3 0 = 0x47 →
      buf.length < 24 → getImageInfo buf = ⟨"unknown", 0, 0, false⟩) ∧
    (buf.getD 0 0 = 0xFF → buf.getD 1 0 = 0xD8 →
      infoWalk buf.length buf 2 = some (some o) →
      (readUInt16BE buf (o+5) = none ∨ readUInt16BE buf (o+7) = none) →
      getImageInfo buf = ⟨"unknown", 0, 0, false⟩) := by
  constructor
  · intro hpng hlen
    have hnj : ¬(buf.getD 0 0 = 0xFF ∧ buf.getD 1 0 = 0xD8) := by
      intro h
      obtain ⟨ha, _⟩ := h
      obtain ⟨hb, _⟩ := hpng
      omega
    rw [getImageInfo, if_neg hnj, if_pos hpng]
    cases h16 : readUInt32BE buf 16 with
    | none => simp only [h16]
    | some w =>
      have h20 : readUInt32BE buf 20 = none := by
        rw [readUInt32BE, if_neg (by omega)]
      simp only [h16, h20]
  · intro h0 h1 hwalk herr
    rcases infoLoop_shape buf.length buf 2 false with
      ⟨h1', _⟩ | ⟨e', h1', _⟩ | ⟨o', h1', hsub⟩
    · rw [h1'] at hwalk; exact absurd hwalk (by simp)
    · rw [h1'] at hwalk; simp at hwalk
    · rw [h1'] at hwalk
      have ho : o' = o := by simpa using hwalk
      subst ho
      rcases hsub with ⟨e', hgt', wdt', hh', hw', _⟩ | ⟨hnone, _⟩
      · rcases herr with h5 | h7
        · rw [hh'] at h5; exact absurd h5 (by simp)
        · rw [hw'] at h7; exact absurd h7 (by simp)
      · rw [getImageInfo, if_pos ⟨h0, h1⟩, hnone]

theorem c5_witness :
    getImageInfo [0x89, 0x50, 0x4E, 0x47] = ⟨"unknown", 0, 0, false⟩ ∧
    getImageInfo [0xFF, 0xD8, 0xFF, 0xC0, 0x00, 0x10] = ⟨"unknown", 0, 0, false⟩ :=
  ⟨(c5_soft_fail_unknown [0x89, 0x50, 0x4E, 0x47] 0).1 (by decide) (by decide),
   (c5_soft_fail_unknown [0xFF, 0xD8, 0xFF, 0xC0, 0x00, 0x10] 2).2 (by decide) (by decide)
     (by decide) (by decide)⟩

theorem c5_counterexample :
    getImageInfo [0x89, 0x50, 0x4E, 0x47] = ⟨"unknown", 0, 0, false⟩ ∧
    ("unknown" : String) ≠ "png" ∧
    getImageInfo [0xFF, 0xD8, 0xFF, 0xC0, 0x00, 0x10] = ⟨"unknown", 0, 0, false⟩ ∧
    ("unknown" : String) ≠ "jpeg" := by decide

/-- C6: format detection is exactly the magic-byte test — JPEG iff the
first two bytes are `0xFF 0xD8`, PNG iff the first four are
`0x89 0x50 0x4E 0x47`, UNKNOWN otherwise — and zero-length or
single-byte buffers yield the unknown metadata record without error. -/
theorem c6_detect_format (buf : List Nat) (b : Nat) :
    (detectFormat buf = ImageFormat.jpeg ↔
      buf[0]? = some 0xFF ∧ buf[1]? = some 0xD8) ∧
    (detectFormat buf = ImageFormat.png ↔
      buf[0]? = some 0x89 ∧ buf[1]? = some 0x50 ∧
        buf[2]? = some 0x4E ∧ buf[3]? = some 0x47) ∧
    getImageInfo [] = ⟨"unknown", 0, 0, false⟩ ∧
    detectFormat [] = ImageFormat.unknown ∧
    getImageInfo [b] = ⟨"unknown", 0, 0, false⟩ ∧
    detectFormat [b] = ImageFormat.unknown := by
  have hd1 : ([b] : List Nat).getD 1 0 = 0 := rfl
  have hj1 : ¬(([b] : List Nat).getD 0 0 = 0xFF ∧ ([b] : List Nat).getD 1 0 = 0xD8) := by
    intro h
    have h2 := h.2
    rw [hd1] at h2
    exact absurd h2 (by decide)
  have hp1 : ¬(([b] : List Nat).getD 0 0 = 0x89 ∧ ([b] : List Nat).getD 1 0 = 0x50 ∧
      ([b] : List Nat).getD 2 0 = 0x4E ∧ ([b] : List Nat).getD 3 0 = 0x47) := by
    intro h
    have h2 := h.2.1
    rw [hd1] at h2
    exact absurd h2 (by decide)
  refine ⟨?_, ?_, by decide, by decide, ?_, ?_⟩
  · constructor
    · intro h
      by_cases hj : buf.getD 0 0 = 0xFF ∧ buf.getD 1 0 = 0xD8
      · exact ⟨(getD_some_iff (by decide)).mp hj.1, (getD_some_iff (by decide)).mp hj.2⟩
      · exfalso
        rw [detectFormat, if_neg hj] at h
        by_cases hp : buf.getD 0 0 = 0x89 ∧ buf.getD 1 0 = 0x50 ∧
            buf.getD 2 0 = 0x4E ∧ buf.getD 3 0 = 0x47
        · rw [if_pos hp] at h; simp at h
        · rw [if_neg hp] at h; simp at h
    · rintro ⟨ha, hb2⟩
      rw [detectFormat, if_pos ⟨(getD_some_iff (by decide)).mpr ha,
        (getD_some_iff (by decide)).mpr hb2⟩]
  · constructor
    · intro h
      by_cases hj : buf.getD 0 0 = 0xFF ∧ buf.getD 1 0 = 0xD8
      · exfalso; rw [detectFormat, if_pos hj] at h; simp at h
      · rw [detectFormat, if_neg hj] at h
        by_cases hp : buf.getD 0 0 = 0x89 ∧ buf.getD 1 0 = 0x50 ∧
            buf.getD 2 0 = 0x4E ∧ buf.getD 3 0 = 0x47
        · exact ⟨(getD_some_iff (by decide)).mp hp.1,
            (getD_some_iff (by decide)).mp hp.2.1,
            (getD_some_iff (by decide)).mp hp.2.2.1,
            (getD_some_iff (by decide)).mp hp.2.2.2⟩
        · rw [if_neg hp] at h; simp at h
    · rintro ⟨h89, h50, h4e, h47⟩
      have hp : buf.getD 0 0 = 0x89 ∧ buf.getD 1 0 = 0x50 ∧
          buf.getD 2 0 = 0x4E ∧ buf.getD 3 0 = 0x47 :=
        ⟨(getD_some_iff (by decide)).mpr h89, (getD_some_iff (by decide)).mpr h50,
         (getD_some_iff (by decide)).mpr h4e, (getD_some_iff (by decide)).mpr h47⟩
      have hnj : ¬(buf.getD 0 0 = 0xFF ∧ buf.getD 1 0 = 0xD8) := by
        intro hj
        obtain ⟨ha, _⟩ := hj
        obtain ⟨hb', _⟩ := hp
        omega
      rw [detectFormat, if_neg hnj, if_pos hp]
  · rw [getImageInfo, if_neg hj1, if_neg hp1]
  · rw [detectFormat, if_neg hj1, if_neg hp1]

/-- C7 (amended): `getImageSize` computes the exact rational
`length * 3/4 - paddingCount` without flooring; whenever the encoded
length is a multiple of four — as every valid base64 string's is — this
coincides with `floor(length * 3/4) - paddingCount`. -/
theorem c7_size_estimate (s : List Char) (h4 : 4 ∣ s.length) :
    getImageSize s
      = ((⌊(s.length * 3 : ℚ) / 4⌋ : ℤ) : ℚ) - (s.count '=' : ℚ) := by
  obtain ⟨k, hk⟩ := h4
  rw [getImageSize, hk]
  have hfl : ((4 * k : ℕ) : ℚ) * 3 / 4 = ((3 * k : ℤ) : ℚ) := by
    push_cast
    ring
  rw [hfl, Int.floor_intCast]

theorem c7_witness :
    getImageSize (List.replicate 98 'A' ++ ['=', '=']) = 73 := by
  have h := c7_size_estimate (List.replicate 98 'A' ++ ['=', '=']) (by decide)
  rw [h]
  have hl : (List.replicate 98 'A' ++ ['=', '=']).length = 100 := by decide
  have hc : (List.replicate 98 'A' ++ ['=', '=']).count '=' = 2 := by decide
  rw [hl, hc]
  have hfl : ((100 : ℕ) : ℚ) * 3 / 4 = ((75 : ℤ) : ℚ) := by norm_num
  rw [hfl, Int.floor_intCast]
  norm_num

theorem c7_counterexample :
    getImageSize ['A'] = 3 / 4 ∧
    ((⌊(((['A'] : List Char).length : ℚ) * 3) / 4⌋ : ℤ) : ℚ)
        - ((['A'] : List Char).count '=' : ℚ) = 0 ∧
    (3 / 4 : ℚ) ≠ 0 := by
  refine ⟨?_, ?_, by norm_num⟩
  · rw [getImageSize]
    have hc0 : (['A'] : List Char).count '=' = 0 := by decide
    rw [hc0]
    norm_num
  · have hl : (['A'] : List Char).length = 1 := rfl
    have hc : (['A'] : List Char).count '=' = 0 := rfl
    rw [hl, hc]
    have hfl : (⌊((1 : ℕ) : ℚ) * 3 / 4⌋ : ℤ) = 0 := by
      apply Int.floor_eq_zero_iff.mpr
      constructor <;> norm_num
    rw [hfl]
    norm_num

/-- C9 (amended): a zero-length buffer is not a hard failure: every
operation completes normally on it — `getImageInfo` returns the unknown
record, `stripExif` passes the buffer through, format validation
returns `false`, and detection returns UNKNOWN. -/
theorem c9_empty_input_defined (buf : List Nat) (h : buf.length = 0) :
    getImageInfo buf = ⟨"unknown", 0, 0, false⟩ ∧ stripExif buf = buf ∧
    validateImageFormat buf = false ∧ detectFormat buf = ImageFormat.unknown := by
  have hnil : buf = [] := List.length_eq_zero.mp h
  subst hnil
  decide

theorem c9_witness :
    getImageInfo [] = ⟨"unknown", 0, 0, false⟩ ∧ stripExif [] = [] ∧
    validateImageFormat [] = false ∧ detectFormat [] = ImageFormat.unknown :=
  c9_empty_input_defined [] rfl

theorem c9_counterexample :
    getImageInfo [] = ⟨"unknown", 0, 0, false⟩ ∧ stripExif [] = [] ∧
    validateImageFormat [] = false := by decide

/-- C10: a JPEG whose APP1 segment sits after the first SOF0 segment is
changed by `stripExif` (the APP1 is removed), yet `getImageInfo` reports
`hasExif = false`, because the metadata scan breaks at the first SOF0
before ever seeing the APP1. -/
theorem c10_exif_scan_misses_app1 :
    stripExif [0xFF, 0xD8, 0xFF, 0xC0, 0x00, 0x06, 0x09, 0x00, 0x10, 0x00,
        0xFF, 0xE1, 0x00, 0x04, 0x00, 0x00, 0xFF, 0xDA, 0x00, 0x00] ≠
      [0xFF, 0xD8, 0xFF, 0xC0, 0x00, 0x06, 0x09, 0x00, 0x10, 0x00,
        0xFF, 0xE1, 0x00, 0x04, 0x00, 0x00, 0xFF, 0xDA, 0x00, 0x00] ∧
    (getImageInfo [0xFF, 0xD8, 0xFF, 0xC0, 0x00, 0x06, 0x09, 0x00, 0x10, 0x00,
        0xFF, 0xE1, 0x00, 0x04, 0x00, 0x00, 0xFF, 0xDA, 0x00, 0x00]).hasExif = false ∧
    walkSegsF 20 [0xFF, 0xD8, 0xFF, 0xC0, 0x00, 0x06, 0x09, 0x00, 0x10, 0x00,
        0xFF, 0xE1, 0x00, 0x04, 0x00, 0x00, 0xFF, 0xDA, 0x00, 0x00] 2 =
      some (.sos [⟨0xC0, 2, 8⟩, ⟨0xE1, 10, 6⟩] 16) := by decide

end WearNow
